import Mathlib

/-! Tic-tac-toe game widget and user-lookup widget of `src/src/App.js`.

A shallow embedding of the state handling in `App.js`:

* `calculateWinner`, `Board.handleClick`, `Game.handlePlay`, `Game.jumpTo` for the game;
* `parseInt`, the number input and its `onChange`, `fetchUserData`, `handleSearch`, the
  response handlers and the render conditions for the lookup widget.

React state is modelled by explicit state passing: every handler is a function from the
state it closes over to the state after the (batched) setter calls.  A JavaScript `null` or
`undefined` cell is `none`; both are falsy, and the code only ever tests cells for
truthiness or compares a truthy cell with another cell, so the two need not be told apart.
-/

namespace TicTacToe

/-! ## Data model -/

/-- The two marks, the strings `"X"` and `"O"`. -/
inductive Mark where
  | X
  | O
  deriving DecidableEq, Repr

/-- One cell of the board: `none` is `null` (or a hole of the array), `some m` is a mark. -/
abbrev Cell := Option Mark

/-- The `squares` array. -/
abbrev Squares := List Cell

/-- JavaScript `squares[i]`: reading past the end gives `undefined`, here `none`. -/
def cellAt (squares : Squares) (i : Nat) : Cell :=
  match squares[i]? with
  | some c => c
  | none => none

/-- JavaScript `nextSquares[i] = v`: inside the array the cell is overwritten, past the end
the array grows, the cells in between being holes. -/
def arraySet (squares : Squares) (i : Nat) (v : Cell) : Squares :=
  if i < squares.length then squares.set i v
  else squares ++ List.replicate (i - squares.length) none ++ [v]

/-- The initial board `Array(9).fill(null)`. -/
def emptyBoard : Squares := List.replicate 9 none

/-! ## `calculateWinner` (App.js 225-242) -/

/-- The constant `lines` of `calculateWinner`. -/
def lines : List (Nat × Nat × Nat) :=
  [(0, 1, 2), (3, 4, 5), (6, 7, 8), (0, 3, 6), (1, 4, 7), (2, 5, 8), (0, 4, 8), (2, 4, 6)]

/-- The condition of the `if` in the loop of `calculateWinner`:
`squares[a] && squares[a] === squares[b] && squares[a] === squares[c]`. -/
def lineHit (squares : Squares) (a b c : Nat) : Bool :=
  (cellAt squares a).isSome && cellAt squares a == cellAt squares b
    && cellAt squares a == cellAt squares c

/-- The `for (let [a, b, c] of lines)` loop of `calculateWinner` over an arbitrary list of
triples: the first triple that hits returns its mark, the end of the list returns `null`. -/
def scanLines : List (Nat × Nat × Nat) → Squares → Option Mark
  | [], _ => none
  | (a, b, c) :: rest, squares =>
    if lineHit squares a b c then cellAt squares a else scanLines rest squares

/-- The function `calculateWinner(squares)`. -/
def calculateWinner (squares : Squares) : Option Mark :=
  scanLines lines squares

/-! ## `Board.handleClick` and `Game` (App.js 102-152) -/

/-- The state of `Game`: the two `useState` cells. -/
structure Game where
  history : List Squares
  currentMove : Nat
  deriving DecidableEq, Repr

namespace Game

/-- The initial state: `history = [Array(9).fill(null)]`, `currentMove = 0`. -/
def initial : Game := ⟨[emptyBoard], 0⟩

/-- The derived value `xIsNext = currentMove % 2 === 0`. -/
def xIsNext (g : Game) : Bool := g.currentMove % 2 == 0

/-- The derived value `currentSquares = history[currentMove]`; `none` is `undefined`. -/
def currentSquares (g : Game) : Option Squares := g.history[g.currentMove]?

/-- The function `handlePlay(nextSquares)`. -/
def handlePlay (g : Game) (nextSquares : Squares) : Game :=
  let nextHistory := g.history.take (g.currentMove + 1) ++ [nextSquares]
  ⟨nextHistory, nextHistory.length - 1⟩

/-- The function `jumpTo(move)`. -/
def jumpTo (g : Game) (move : Nat) : Game :=
  { g with currentMove := move }

/-- The jump targets offered by `moves = history.map((squares, move) => ...)`: one button
per history entry, calling `jumpTo(move)` with the entry's index. -/
def moves (g : Game) : List Nat :=
  g.history.enum.map (fun p => p.1)

end Game

/-- The function `handleClick(i)` of `Board`, given the props `xIsNext` and `squares`:
`none` is the early `return`, `some nextSquares` is the call `onPlay(nextSquares)`. -/
def Board.handleClick (xIsNext : Bool) (squares : Squares) (i : Nat) : Option Squares :=
  if (calculateWinner squares).isSome || (cellAt squares i).isSome then none
  else some (arraySet squares i (some (if xIsNext then Mark.X else Mark.O)))

namespace Game

/-- A click on cell `i` of the rendered board: `Board.handleClick` with the props that `Game`
passes (`xIsNext`, `currentSquares`, `handlePlay`).  The result is `none` when
`history[currentMove]` is `undefined`, where `calculateWinner(undefined)` throws. -/
def click (g : Game) (i : Nat) : Option Game :=
  match g.currentSquares with
  | none => none
  | some squares =>
    match Board.handleClick g.xIsNext squares i with
    | none => some g
    | some nextSquares => some (g.handlePlay nextSquares)

/-- A sequence of clicks, in order. -/
def clicks : Game → List Nat → Option Game
  | g, [] => some g
  | g, i :: rest =>
    match g.click i with
    | none => none
    | some g' => clicks g' rest

end Game

/-- The states the game reaches from the initial state by clicks on the cells `0..8` and
jumps to the indices of the history entries. -/
inductive Reachable : Game → Prop where
  | init : Reachable Game.initial
  | click {g g' : Game} (i : Nat) :
      Reachable g → i < 9 → g.click i = some g' → Reachable g'
  | jump {g : Game} (m : Nat) :
      Reachable g → m < g.history.length → Reachable (g.jumpTo m)

/-! ## Counting -/

/-- Number of cells holding the mark `m`. -/
def countMark (m : Mark) (squares : Squares) : Nat :=
  squares.count (some m)

/-- Number of non-empty cells. -/
def countFilled (squares : Squares) : Nat :=
  squares.countP Option.isSome

/-! ## Sample states -/

/-- The state after the clicks 0 and 4 from the initial state. -/
def sampleGame : Game :=
  ⟨[emptyBoard,
    [some Mark.X, none, none, none, none, none, none, none, none],
    [some Mark.X, none, none, none, some Mark.O, none, none, none, none]], 2⟩

/-- The state after the clicks 0, 4, 1, 3, 2 from the initial state. -/
def scenarioGame : Game :=
  ⟨[emptyBoard,
    [some Mark.X, none, none, none, none, none, none, none, none],
    [some Mark.X, none, none, none, some Mark.O, none, none, none, none],
    [some Mark.X, some Mark.X, none, none, some Mark.O, none, none, none, none],
    [some Mark.X, some Mark.X, none, some Mark.O, some Mark.O, none, none, none, none],
    [some Mark.X, some Mark.X, some Mark.X, some Mark.O, some Mark.O, none, none, none, none]],
    5⟩

/-! ## Predicates used in the statements -/

/-- The triple `(a, b, c)` of `squares` has three cells holding the mark `m`. -/
def tripleOf (m : Mark) (squares : Squares) (t : Nat × Nat × Nat) : Prop :=
  squares[t.1]? = some (some m) ∧ squares[t.2.1]? = some (some m)
    ∧ squares[t.2.2]? = some (some m)

/-- Some one of the 8 fixed triples of `squares` has three cells holding the mark `m`. -/
def hasTriple (m : Mark) (squares : Squares) : Prop :=
  ∃ t ∈ lines, tripleOf m squares t

/-- The mark placed by the move made from history index `k`. -/
def moveMark (k : Nat) : Mark :=
  if k % 2 = 0 then Mark.X else Mark.O

/-- The board `b'` comes from the board `b` at history index `k` by one accepted move: `b`
has no winner, and `b'` is `b` with one empty cell set to the mark of move `k`. -/
def StepOK (k : Nat) (b b' : Squares) : Prop :=
  calculateWinner b = none ∧
    ∃ j, j < 9 ∧ cellAt b j = none ∧ b' = b.set j (some (moveMark k))

/-- The invariant of the reachable states. -/
structure Inv (g : Game) : Prop where
  valid : g.currentMove < g.history.length
  start : g.history[0]? = some emptyBoard
  nine : ∀ (k : Nat) (b : Squares), g.history[k]? = some b → b.length = 9
  step : ∀ (k : Nat) (b b' : Squares), g.history[k]? = some b → g.history[k + 1]? = some b' → StepOK k b b'

end TicTacToe

/-! ## The lookup widget (App.js 7-89) -/

namespace Lookup

/-! ### `parseInt` -/

/-- The code points that `parseInt` skips at the start of its argument: the ECMAScript
`WhiteSpace` and `LineTerminator` characters. -/
def isWhiteSpace (c : Char) : Bool :=
  c.toNat ∈ [0x09, 0x0A, 0x0B, 0x0C, 0x0D, 0x20, 0xA0, 0x1680, 0x2028, 0x2029, 0x202F,
    0x205F, 0x3000, 0xFEFF] || (0x2000 ≤ c.toNat && c.toNat ≤ 0x200A)

/-- The decimal digits `0-9` (code points 48 to 57). -/
def isDecimalDigit (c : Char) : Bool :=
  decide (48 ≤ c.toNat) && decide (c.toNat ≤ 57)

/-- The value of a character as a digit: `0-9`, then `a-z` (code points 97 to 122) or `A-Z`
(65 to 90) for ten to thirty-five. -/
def digitValue (c : Char) : Option Nat :=
  if isDecimalDigit c then some (c.toNat - 48)
  else if 97 ≤ c.toNat ∧ c.toNat ≤ 122 then some (c.toNat - 97 + 10)
  else if 65 ≤ c.toNat ∧ c.toNat ≤ 90 then some (c.toNat - 65 + 10)
  else none

/-- Whether `c` is a digit of radix `R`. -/
def isRadixDigit (R : Nat) (c : Char) : Bool :=
  match digitValue c with
  | some d => d < R
  | none => false

/-- The mathematical integer written by the digits `Z` in radix `R`. -/
def digitsValue (R : Nat) (Z : List Char) : Nat :=
  Z.foldl (fun acc c => acc * R + (digitValue c).getD 0) 0

/-- The sign step of `parseInt`: `-1` when the text starts with `-`, else `1`; a leading `+`
or `-` is removed. -/
def splitSign : List Char → Int × List Char
  | '-' :: rest => (-1, rest)
  | '+' :: rest => (1, rest)
  | S => (1, S)

/-- The radix step of `parseInt` without a radix argument: `0x` or `0X` is removed and
selects radix 16, otherwise the radix is 10. -/
def splitRadix : List Char → Nat × List Char
  | '0' :: 'x' :: rest => (16, rest)
  | '0' :: 'X' :: rest => (16, rest)
  | S => (10, S)

/-- ECMAScript `parseInt(string)` with no radix argument; `none` is `NaN`.  The result is
the exact integer: the comparisons made on it (`>= 1`, `<= 10`) give the same answer on
the exact value as on its rounding to a double, and `-0` compares like `0`. -/
def parseInt (inputString : String) : Option Int :=
  let S := inputString.toList.dropWhile isWhiteSpace
  let (sign, S) := splitSign S
  let (R, S) := splitRadix S
  let Z := S.takeWhile (isRadixDigit R)
  if Z.isEmpty then none else some (sign * (digitsValue R Z : Int))

/-! ### State, handlers, render conditions -/

/-- The fields of a fetched record that the widget reads; `id = none` is a record without
an `id` field. -/
structure UserRecord where
  id : Option Nat
  name : String
  email : String
  phone : String
  website : String
  deriving DecidableEq, Repr

/-- JavaScript truthiness of `data.id`. -/
def UserRecord.hasId (data : UserRecord) : Bool :=
  match data.id with
  | some n => n != 0
  | none => false

/-- The five `useState` cells of `UserProfileLookup`; `error` holds the message of the
caught error object. -/
structure Widget where
  userId : String
  user : Option UserRecord
  loading : Bool
  error : Option String
  notFound : Bool
  deriving DecidableEq, Repr

/-- The initial state of the widget. -/
def Widget.initial : Widget := ⟨"", none, false, none, false⟩

/-- The synchronous part of `fetchUserData(id)`: the four setters, and the one call of
`fetch` with the URL ending in `id`, returned as the list of requests issued. -/
def fetchUserData (w : Widget) (id : Int) : Widget × List Int :=
  ({ w with loading := true, user := none, error := none, notFound := false }, [id])

/-- The test `id >= 1 && id <= 10` on the result of `parseInt`; it is false on `NaN`. -/
def idInRange : Option Int → Bool
  | some id => decide (1 ≤ id) && decide (id ≤ 10)
  | none => false

/-- The function `handleSearch()`: the state after it and the requests it issues. -/
def handleSearch (w : Widget) : Widget × List Int :=
  match parseInt w.userId with
  | some id =>
    if idInRange (some id) then fetchUserData w id
    else ({ w with notFound := true, user := none, error := none, loading := false }, [])
  | none => ({ w with notFound := true, user := none, error := none, loading := false }, [])

/-- What comes back for one request: the promise of `fetch` rejects, or it resolves with
a response whose `ok` flag and parsed body are given. -/
inductive Response where
  | rejected (message : String)
  | http (ok : Bool) (data : UserRecord)
  deriving DecidableEq, Repr

/-- The `.then` / `.then` / `.catch` chain of `fetchUserData` run on an arrived response. -/
def onResponse (w : Widget) : Response → Widget
  | .rejected message => { w with error := some message, loading := false }
  | .http false _ => { w with error := some "Network error", loading := false }
  | .http true data =>
    if data.hasId then { w with user := some data, loading := false }
    else { w with notFound := true, loading := false }

/-- The four displays of the result area. -/
inductive Display where
  | loading
  | error
  | notFound
  | userCard
  deriving DecidableEq, Repr

/-- The render conditions of the result area (App.js 67-85), in source order. -/
def shown (w : Widget) : List Display :=
  (if w.loading then [Display.loading] else [])
  ++ (if w.error.isSome then [Display.error] else [])
  ++ (if w.notFound && !w.loading && !w.error.isSome then [Display.notFound] else [])
  ++ (if w.user.isSome && !w.loading && !w.error.isSome then [Display.userCard] else [])

/-! ### The input element (App.js 55-62) -/

/-- The HTML "valid floating-point number": an optional `-`, then digits, or a `.` followed
by digits, or both, then optionally an exponent (`e` or `E`, an optional sign, digits). -/
def isValidNumber (text : String) : Bool :=
  let cs := match text.toList with
    | '-' :: r => r
    | cs => cs
  let whole := cs.takeWhile isDecimalDigit
  let rest := cs.dropWhile isDecimalDigit
  let mantissaOk := match rest with
    | '.' :: r => !(r.takeWhile isDecimalDigit).isEmpty
    | _ => !whole.isEmpty
  let rest := match rest with
    | '.' :: r => r.dropWhile isDecimalDigit
    | r => r
  let exponentOk := match rest with
    | [] => true
    | e :: r =>
      let r := match r with
        | '-' :: r => r
        | '+' :: r => r
        | r => r
      (e == 'e' || e == 'E') && !r.isEmpty && r.all isDecimalDigit
  mantissaOk && exponentOk

/-- The `value` of the `<input type="number">` holding the text `typed`: the text itself
when it is a valid number, the empty string otherwise (the value sanitization of the
element). -/
def numberInputValue (typed : String) : String :=
  if isValidNumber typed then typed else ""

/-- The handler `onChange={(e) => setUserId(e.target.value)}` of the input element, run
when the element holds the text `typed`. -/
def onChange (w : Widget) (typed : String) : Widget :=
  { w with userId := numberInputValue typed }

/-- The widget together with the requests issued and not yet answered. -/
structure Sys where
  widget : Widget
  pending : List Int
  deriving DecidableEq, Repr

/-- The start: the initial widget, nothing requested. -/
def Sys.initial : Sys := ⟨Widget.initial, []⟩

/-- The events of the widget: typing into the input (`onChange`), pressing Search, and the
arrival of the response to the `k`-th outstanding request. -/
inductive Ev where
  | type (text : String)
  | search
  | arrive (k : Nat) (r : Response)
  deriving DecidableEq, Repr

/-- One event; the arrival of a response to a request that is not outstanding is `none`. -/
def Sys.step (s : Sys) : Ev → Option Sys
  | .type text => some { s with widget := onChange s.widget text }
  | .search =>
    let r := handleSearch s.widget
    some ⟨r.1, s.pending ++ r.2⟩
  | .arrive k r =>
    if k < s.pending.length then some ⟨onResponse s.widget r, s.pending.eraseIdx k⟩
    else none

/-- A sequence of events, in order. -/
def Sys.run : Sys → List Ev → Option Sys
  | s, [] => some s
  | s, e :: rest =>
    match s.step e with
    | none => none
    | some s' => Sys.run s' rest

end Lookup

/-! # Theorems: the game -/

namespace TicTacToe

/-! ## Reading cells -/

theorem cellAt_eq_some {squares : Squares} {i : Nat} {m : Mark} :
    cellAt squares i = some m ↔ squares[i]? = some (some m) := by
  unfold cellAt
  cases h : squares[i]? with
  | none => simp
  | some c => simp

theorem cellAt_eq_none_of_lt {squares : Squares} {i : Nat} (hi : i < squares.length) :
    cellAt squares i = none ↔ squares[i]? = some none := by
  unfold cellAt
  cases h : squares[i]? with
  | none =>
    have := List.getElem?_eq_none_iff.mp h
    omega
  | some c => simp

theorem cellAt_set_self {squares : Squares} {i : Nat} {v : Cell} (hi : i < squares.length) :
    cellAt (squares.set i v) i = v := by
  unfold cellAt
  rw [List.getElem?_set_self hi]

theorem cellAt_set_ne {squares : Squares} {i j : Nat} {v : Cell} (hij : i ≠ j) :
    cellAt (squares.set i v) j = cellAt squares j := by
  unfold cellAt
  rw [List.getElem?_set_ne hij]

theorem arraySet_of_lt {squares : Squares} {i : Nat} {v : Cell} (hi : i < squares.length) :
    arraySet squares i v = squares.set i v := by
  unfold arraySet
  rw [if_pos hi]

/-! ## The scan of `calculateWinner` -/

theorem lineHit_iff {squares : Squares} {a b c : Nat} :
    lineHit squares a b c = true ↔
      ∃ m, cellAt squares a = some m ∧ cellAt squares b = some m ∧ cellAt squares c = some m := by
  unfold lineHit
  cases ha : cellAt squares a with
  | none => simp
  | some m =>
    constructor
    · intro h
      simp only [Option.isSome_some, Bool.true_and, Bool.and_eq_true, beq_iff_eq] at h
      exact ⟨m, rfl, h.1.symm, h.2.symm⟩
    · rintro ⟨m', h1, h2, h3⟩
      cases h1
      simp [h2, h3]

theorem lineHit_iff_tripleOf {squares : Squares} {t : Nat × Nat × Nat} :
    lineHit squares t.1 t.2.1 t.2.2 = true ↔ ∃ m, tripleOf m squares t := by
  rw [lineHit_iff]
  simp only [tripleOf, cellAt_eq_some]

theorem scanLines_eq_none_iff {ls : List (Nat × Nat × Nat)} {squares : Squares} :
    scanLines ls squares = none ↔ ∀ t ∈ ls, lineHit squares t.1 t.2.1 t.2.2 = false := by
  induction ls with
  | nil => simp [scanLines]
  | cons t rest ih =>
    obtain ⟨a, b, c⟩ := t
    simp only [scanLines, List.mem_cons, forall_eq_or_imp]
    by_cases h : lineHit squares a b c = true
    · obtain ⟨m, ha, -, -⟩ := lineHit_iff.mp h
      simp [h, ha]
    · simp only [h, Bool.false_eq_true, if_false, ih]
      simp [Bool.eq_false_iff.mpr h]

theorem scanLines_eq_some {ls : List (Nat × Nat × Nat)} {squares : Squares} {m : Mark}
    (h : scanLines ls squares = some m) : ∃ t ∈ ls, tripleOf m squares t := by
  induction ls with
  | nil => simp [scanLines] at h
  | cons t rest ih =>
    obtain ⟨a, b, c⟩ := t
    simp only [scanLines] at h
    by_cases hh : lineHit squares a b c = true
    · rw [if_pos hh] at h
      obtain ⟨m', ha, hb, hc⟩ := lineHit_iff.mp hh
      have : m' = m := by rw [ha] at h; exact Option.some.inj h
      subst this
      exact ⟨(a, b, c), List.mem_cons_self _ _,
        cellAt_eq_some.mp ha, cellAt_eq_some.mp hb, cellAt_eq_some.mp hc⟩
    · rw [if_neg hh] at h
      obtain ⟨t, ht, htr⟩ := ih h
      exact ⟨t, List.mem_cons_of_mem _ ht, htr⟩

theorem calculateWinner_eq_none_iff {squares : Squares} :
    calculateWinner squares = none ↔ ∀ m, ¬ hasTriple m squares := by
  unfold calculateWinner
  rw [scanLines_eq_none_iff]
  constructor
  · rintro h m ⟨t, ht, htr⟩
    have := h t ht
    rw [Bool.eq_false_iff] at this
    exact this (lineHit_iff_tripleOf.mpr ⟨m, htr⟩)
  · intro h t ht
    rw [Bool.eq_false_iff]
    intro hh
    obtain ⟨m, hm⟩ := lineHit_iff_tripleOf.mp hh
    exact h m ⟨t, ht, hm⟩

/-! ## One click -/

theorem getElem?_play {α : Type} (h : List α) (cm : Nat) (x : α) (hcm : cm < h.length)
    (k : Nat) :
    (h.take (cm + 1) ++ [x])[k]? =
      if k ≤ cm then h[k]? else if k = cm + 1 then some x else none := by
  have hlen : (h.take (cm + 1)).length = cm + 1 := by
    rw [List.length_take]; omega
  by_cases hk : k ≤ cm
  · rw [if_pos hk, List.getElem?_append_left (by omega), List.getElem?_take_of_lt (by omega)]
  · rw [if_neg hk, List.getElem?_append_right (by omega), hlen]
    by_cases hk' : k = cm + 1
    · subst hk'; simp
    · rw [if_neg hk']
      have : k - (cm + 1) = (k - (cm + 1) - 1) + 1 := by omega
      rw [this]; simp

theorem handlePlay_eq (g : Game) (x : Squares) (hcm : g.currentMove < g.history.length) :
    g.handlePlay x = ⟨g.history.take (g.currentMove + 1) ++ [x], g.currentMove + 1⟩ := by
  unfold Game.handlePlay
  have hlen : (g.history.take (g.currentMove + 1)).length = g.currentMove + 1 := by
    rw [List.length_take]; omega
  simp [hlen]

theorem click_blocked {g : Game} {squares : Squares} {i : Nat}
    (hcur : g.history[g.currentMove]? = some squares)
    (h : calculateWinner squares ≠ none ∨ cellAt squares i ≠ none) :
    g.click i = some g := by
  have hb : Board.handleClick g.xIsNext squares i = none := by
    unfold Board.handleClick
    rw [if_pos]
    rcases h with h | h
    · simp [Option.isSome_iff_ne_none.mpr h]
    · simp [Option.isSome_iff_ne_none.mpr h]
  simp only [Game.click, Game.currentSquares, hcur, hb]

theorem click_free {g : Game} {squares : Squares} {i : Nat}
    (hcur : g.history[g.currentMove]? = some squares)
    (hw : calculateWinner squares = none) (hc : cellAt squares i = none) :
    g.click i = some ⟨g.history.take (g.currentMove + 1)
        ++ [arraySet squares i (some (moveMark g.currentMove))], g.currentMove + 1⟩ := by
  have hcm : g.currentMove < g.history.length := by
    by_contra hn
    rw [List.getElem?_eq_none (by omega)] at hcur
    cases hcur
  have hm : (if g.xIsNext then Mark.X else Mark.O) = moveMark g.currentMove := by
    unfold Game.xIsNext moveMark
    by_cases h : g.currentMove % 2 = 0 <;> simp [h]
  have hb : Board.handleClick g.xIsNext squares i
      = some (arraySet squares i (some (moveMark g.currentMove))) := by
    unfold Board.handleClick
    rw [if_neg (by simp [hw, hc]), hm]
  simp only [Game.click, Game.currentSquares, hcur, hb, handlePlay_eq g _ hcm]

/-! ## The invariant -/

theorem inv_initial : Inv Game.initial := by
  refine ⟨by decide, by decide, ?_, ?_⟩
  · intro k b hb
    cases k with
    | zero => simp [Game.initial] at hb; subst hb; decide
    | succ n => simp [Game.initial] at hb
  · intro k b b' _ hb'
    simp [Game.initial] at hb'

theorem inv_jump {g : Game} (hg : Inv g) {m : Nat} (hm : m < g.history.length) :
    Inv (g.jumpTo m) :=
  ⟨hm, hg.start, hg.nine, hg.step⟩

theorem inv_click {g g' : Game} (hg : Inv g) {i : Nat} (hi : i < 9)
    (hc : g.click i = some g') : Inv g' := by
  obtain ⟨squares, hcur⟩ : ∃ sq, g.history[g.currentMove]? = some sq :=
    ⟨g.history.get ⟨g.currentMove, hg.valid⟩, List.getElem?_eq_getElem hg.valid⟩
  have h9 := hg.nine _ _ hcur
  by_cases hfree : calculateWinner squares = none ∧ cellAt squares i = none
  · rw [click_free hcur hfree.1 hfree.2, arraySet_of_lt (by omega)] at hc
    cases hc
    have hlen : (g.history.take (g.currentMove + 1)).length = g.currentMove + 1 := by
      rw [List.length_take]; have := hg.valid; omega
    refine ⟨?_, ?_, ?_, ?_⟩
    · simp [hlen]
    · show (_ ++ _)[0]? = _
      rw [getElem?_play _ _ _ hg.valid, if_pos (Nat.zero_le _)]
      exact hg.start
    · intro k b hb
      change (_ ++ _)[k]? = _ at hb
      rw [getElem?_play _ _ _ hg.valid] at hb
      split_ifs at hb with h1 h2
      · exact hg.nine k b hb
      · cases hb
        rw [List.length_set]; exact h9
    · intro k b b' hb hb'
      change (_ ++ _)[k]? = _ at hb
      change (_ ++ _)[k + 1]? = _ at hb'
      rw [getElem?_play _ _ _ hg.valid] at hb hb'
      by_cases hk : k + 1 ≤ g.currentMove
      · rw [if_pos (by omega)] at hb
        rw [if_pos hk] at hb'
        exact hg.step k b b' hb hb'
      · rw [if_neg hk] at hb'
        by_cases hk' : k = g.currentMove
        · subst hk'
          rw [if_pos (Nat.le_refl _), hcur] at hb
          rw [if_pos rfl] at hb'
          cases hb; cases hb'
          exact ⟨hfree.1, i, hi, hfree.2, rfl⟩
        · rw [if_neg (by omega)] at hb'
          cases hb'
  · have hblk : calculateWinner squares ≠ none ∨ cellAt squares i ≠ none := by
      by_contra hn
      push_neg at hn
      exact hfree hn
    rw [click_blocked hcur hblk] at hc
    cases hc
    exact hg

theorem reachable_inv {g : Game} (hr : Reachable g) : Inv g := by
  induction hr with
  | init => exact inv_initial
  | click i _ hi hc ih => exact inv_click ih hi hc
  | jump m _ hm ih => exact inv_jump ih hm

/-! ## Consequences of the invariant -/

theorem emptyBoard_getElem? (i : Nat) (m : Mark) : emptyBoard[i]? ≠ some (some m) := by
  unfold emptyBoard
  rw [List.getElem?_replicate]
  by_cases h : i < 9 <;> simp [h]

theorem set_getElem?_mark {p : Squares} {j a : Nat} {mk m : Mark}
    (h : (p.set j (some mk))[a]? = some (some m)) (hne : m ≠ mk) :
    p[a]? = some (some m) := by
  by_cases haj : j = a
  · subst haj
    rw [List.getElem?_set_self'] at h
    cases hp : p[j]? with
    | none => rw [hp] at h; simp at h
    | some c =>
      rw [hp] at h
      have h' : some mk = some m := Option.some.inj h
      exact absurd (Option.some.inj h').symm hne
  · rwa [List.getElem?_set_ne haj] at h

theorem stepOK_triple {k : Nat} {b b' : Squares} (hs : StepOK k b b') {m : Mark}
    (ht : hasTriple m b') : m = moveMark k := by
  obtain ⟨hw, j, -, -, rfl⟩ := hs
  by_contra hne
  obtain ⟨t, ht, h1, h2, h3⟩ := ht
  exact calculateWinner_eq_none_iff.mp hw m
    ⟨t, ht, set_getElem?_mark h1 hne, set_getElem?_mark h2 hne, set_getElem?_mark h3 hne⟩

theorem inv_pred {g : Game} {k : Nat} {b : Squares}
    (hb : g.history[k + 1]? = some b) : ∃ p, g.history[k]? = some p := by
  have hk : k + 1 < g.history.length := by
    by_contra hn
    rw [List.getElem?_eq_none (by omega)] at hb
    cases hb
  exact ⟨g.history.get ⟨k, by omega⟩, List.getElem?_eq_getElem (by omega)⟩

theorem inv_triples_agree {g : Game} (hg : Inv g) {k : Nat} {b : Squares}
    (hb : g.history[k]? = some b) {m m' : Mark}
    (hm : hasTriple m b) (hm' : hasTriple m' b) : m = m' := by
  cases k with
  | zero =>
    rw [hg.start] at hb
    cases hb
    obtain ⟨t, -, h1, -, -⟩ := hm
    exact absurd h1 (emptyBoard_getElem? _ _)
  | succ n =>
    obtain ⟨p, hp⟩ := inv_pred hb
    have hs := hg.step n p b hp hb
    rw [stepOK_triple hs hm, stepOK_triple hs hm']

theorem scanLines_perm {squares : Squares} {l1 l2 : List (Nat × Nat × Nat)}
    (hagree : ∀ m m', (∃ t ∈ l1, tripleOf m squares t) → (∃ t ∈ l1, tripleOf m' squares t)
      → m = m')
    (hp : l2.Perm l1) : scanLines l2 squares = scanLines l1 squares := by
  cases h1 : scanLines l1 squares with
  | none =>
    rw [scanLines_eq_none_iff] at h1 ⊢
    intro t ht
    exact h1 t (hp.mem_iff.mp ht)
  | some m =>
    cases h2 : scanLines l2 squares with
    | none =>
      obtain ⟨t, ht, htr⟩ := scanLines_eq_some h1
      have := scanLines_eq_none_iff.mp h2 t (hp.mem_iff.mpr ht)
      rw [Bool.eq_false_iff] at this
      exact absurd (lineHit_iff_tripleOf.mpr ⟨m, htr⟩) this
    | some m' =>
      obtain ⟨t, ht, htr⟩ := scanLines_eq_some h1
      obtain ⟨t', ht', htr'⟩ := scanLines_eq_some h2
      rw [hagree m' m ⟨t', hp.mem_iff.mp ht', htr'⟩ ⟨t, ht, htr⟩]

theorem countMark_set {b : Squares} {j : Nat} (hj : j < b.length) (hc : cellAt b j = none)
    (m mk : Mark) :
    countMark m (b.set j (some mk)) = countMark m b + (if mk = m then 1 else 0) := by
  have hbj : b[j] = none := by
    have := (cellAt_eq_none_of_lt hj).mp hc
    rw [List.getElem?_eq_getElem hj] at this
    exact Option.some.inj this
  unfold countMark
  rw [List.count_set _ _ _ _ hj, hbj]
  by_cases h : mk = m <;> simp [h]

theorem countFilled_set {b : Squares} {j : Nat} (hj : j < b.length) (hc : cellAt b j = none)
    (mk : Mark) : countFilled (b.set j (some mk)) = countFilled b + 1 := by
  have hbj : b[j] = none := by
    have := (cellAt_eq_none_of_lt hj).mp hc
    rw [List.getElem?_eq_getElem hj] at this
    exact Option.some.inj this
  unfold countFilled
  rw [List.countP_set _ _ _ _ hj, hbj]
  simp

theorem inv_counts {g : Game} (hg : Inv g) :
    ∀ (k : Nat) (b : Squares), g.history[k]? = some b →
      countMark Mark.X b = (k + 1) / 2 ∧ countMark Mark.O b = k / 2 ∧ countFilled b = k := by
  intro k
  induction k with
  | zero =>
    intro b hb
    rw [hg.start] at hb
    cases hb
    decide
  | succ n ih =>
    intro b hb
    obtain ⟨p, hp⟩ := inv_pred hb
    obtain ⟨hX, hO, hF⟩ := ih p hp
    have h9 := hg.nine n p hp
    obtain ⟨-, j, hj, hc, rfl⟩ := hg.step n p b hp hb
    rw [countMark_set (by omega) hc, countMark_set (by omega) hc,
      countFilled_set (by omega) hc, hX, hO, hF]
    unfold moveMark
    by_cases hn : n % 2 = 0
    · simp only [hn, if_true, if_false, reduceCtorEq]
      refine ⟨?_, ?_, trivial⟩ <;> omega
    · simp only [hn, if_true, if_false, reduceCtorEq]
      refine ⟨?_, ?_, trivial⟩ <;> omega

theorem stepOK_diff {k : Nat} {b b' : Squares} (h9 : b.length = 9) (hs : StepOK k b b') :
    ∃ j, j < 9 ∧ b[j]? ≠ b'[j]? ∧ ∀ i, b[i]? ≠ b'[i]? → i = j := by
  obtain ⟨-, j, hj, hc, rfl⟩ := hs
  refine ⟨j, hj, ?_, ?_⟩
  · rw [List.getElem?_set_self (by omega), (cellAt_eq_none_of_lt (by omega)).mp hc]
    simp
  · intro i hi
    by_contra hne
    exact hi (List.getElem?_set_ne (fun h => hne h.symm)).symm

/-! ## The claims about the game -/

/-- C1. On a board of 9 cells `calculateWinner` returns `null` exactly when none of the 8
fixed triples has three equal non-empty cells, and when it returns a mark `m`, one of the
8 triples has its three cells equal to `m`. -/
theorem calculateWinner_spec (squares : Squares) (_h9 : squares.length = 9) :
    (calculateWinner squares = none ↔
      ¬ ∃ t ∈ [(0, 1, 2), (3, 4, 5), (6, 7, 8), (0, 3, 6), (1, 4, 7), (2, 5, 8),
          (0, 4, 8), (2, 4, 6)],
        ∃ m : Mark, squares[t.1]? = some (some m) ∧ squares[t.2.1]? = some (some m)
          ∧ squares[t.2.2]? = some (some m))
    ∧ ∀ m : Mark, calculateWinner squares = some m →
      ∃ t ∈ [(0, 1, 2), (3, 4, 5), (6, 7, 8), (0, 3, 6), (1, 4, 7), (2, 5, 8),
          (0, 4, 8), (2, 4, 6)],
        squares[t.1]? = some (some m) ∧ squares[t.2.1]? = some (some m)
          ∧ squares[t.2.2]? = some (some m) := by
  constructor
  · rw [calculateWinner_eq_none_iff]
    constructor
    · rintro h ⟨t, ht, m, htr⟩
      exact h m ⟨t, ht, htr⟩
    · rintro h m ⟨t, ht, htr⟩
      exact h ⟨t, ht, m, htr⟩
  · intro m hm
    exact scanLines_eq_some hm

/-- Witness of C1: a board of 9 cells with the top row of `"X"`. -/
theorem calculateWinner_spec_witness :
    [some Mark.X, some Mark.X, some Mark.X, some Mark.O, some Mark.O,
        none, none, none, none].length = 9
    ∧ ∃ t ∈ [(0, 1, 2), (3, 4, 5), (6, 7, 8), (0, 3, 6), (1, 4, 7), (2, 5, 8),
          (0, 4, 8), (2, 4, 6)],
        [some Mark.X, some Mark.X, some Mark.X, some Mark.O, some Mark.O,
            none, none, none, none][t.1]? = some (some Mark.X)
        ∧ [some Mark.X, some Mark.X, some Mark.X, some Mark.O, some Mark.O,
            none, none, none, none][t.2.1]? = some (some Mark.X)
        ∧ [some Mark.X, some Mark.X, some Mark.X, some Mark.O, some Mark.O,
            none, none, none, none][t.2.2]? = some (some Mark.X) :=
  ⟨rfl, (calculateWinner_spec [some Mark.X, some Mark.X, some Mark.X, some Mark.O,
    some Mark.O, none, none, none, none] rfl).2 Mark.X (by decide)⟩

/-- C2. When the current board `history[currentMove]` has a winner, or its cell `i` is
occupied, a click on cell `i` leaves the state (history and current move) unchanged. -/
theorem click_noop (g : Game) (squares : Squares) (i : Nat)
    (hcur : g.history[g.currentMove]? = some squares) (_hi : i < 9)
    (h : (∃ m, calculateWinner squares = some m) ∨ (∃ m, squares[i]? = some (some m))) :
    g.click i = some g := by
  apply click_blocked hcur
  rcases h with ⟨m, hm⟩ | ⟨m, hm⟩
  · left; rw [hm]; simp
  · right; rw [cellAt_eq_some.mpr hm]; simp

/-- Witness of C2: after `"X"` on cell 0, a click on the occupied cell 0 changes nothing. -/
theorem click_noop_witness :
    (⟨[emptyBoard, [some Mark.X, none, none, none, none, none, none, none, none]], 1⟩
        : Game).click 0
      = some ⟨[emptyBoard, [some Mark.X, none, none, none, none, none, none, none, none]], 1⟩ :=
  click_noop ⟨[emptyBoard, [some Mark.X, none, none, none, none, none, none, none, none]], 1⟩
    [some Mark.X, none, none, none, none, none, none, none, none] 0 rfl (by decide)
    (Or.inr ⟨Mark.X, rfl⟩)

/-- C3. When the current board has no winner and its cell `i` is empty, a click on cell `i`
gives the state whose history is the first `currentMove + 1` old entries followed by one
new board, equal to the current board except at cell `i`, which holds `"X"` when
`currentMove` is even and `"O"` when it is odd, and whose current move is
`currentMove + 1`, the index of the new last entry; the new history has length
`currentMove + 2`. -/
theorem click_move (g : Game) (squares : Squares) (i : Nat)
    (hcur : g.history[g.currentMove]? = some squares) (_hi : i < 9)
    (hw : calculateWinner squares = none) (hc : squares[i]? = some none) :
    ∃ b' : Squares,
      g.click i = some ⟨g.history.take (g.currentMove + 1) ++ [b'], g.currentMove + 1⟩
      ∧ b'.length = squares.length
      ∧ b'[i]? = some (some (if g.currentMove % 2 = 0 then Mark.X else Mark.O))
      ∧ (∀ j, j ≠ i → b'[j]? = squares[j]?)
      ∧ (g.history.take (g.currentMove + 1) ++ [b']).length = g.currentMove + 2
      ∧ (∀ k, k ≤ g.currentMove →
          (g.history.take (g.currentMove + 1) ++ [b'])[k]? = g.history[k]?)
      ∧ (g.history.take (g.currentMove + 1) ++ [b'])[g.currentMove + 1]? = some b' := by
  have hcm : g.currentMove < g.history.length := by
    by_contra hn
    rw [List.getElem?_eq_none (by omega)] at hcur
    cases hcur
  have hil : i < squares.length := by
    by_contra hn
    rw [List.getElem?_eq_none (by omega)] at hc
    cases hc
  have hcell : cellAt squares i = none := (cellAt_eq_none_of_lt hil).mpr hc
  refine ⟨squares.set i (some (moveMark g.currentMove)), ?_, ?_, ?_, ?_, ?_, ?_, ?_⟩
  · rw [click_free hcur hw hcell, arraySet_of_lt hil]
  · rw [List.length_set]
  · rw [List.getElem?_set_self hil]; rfl
  · intro j hj
    exact List.getElem?_set_ne (fun h => hj h.symm)
  · rw [List.length_append, List.length_take]
    simp only [List.length_singleton]
    omega
  · intro k hk
    rw [getElem?_play _ _ _ hcm, if_pos hk]
  · rw [getElem?_play _ _ _ hcm, if_neg (by omega), if_pos rfl]

/-- Witness of C3: from history index 0 of a two-entry history, a click on cell 4 drops the
old entry 1 and appends the board with `"X"` on cell 4. -/
theorem click_move_witness :
    ∃ b' : Squares,
      (⟨[emptyBoard, [some Mark.X, none, none, none, none, none, none, none, none]], 0⟩
          : Game).click 4 = some ⟨[emptyBoard, b'], 1⟩
      ∧ b'[4]? = some (some Mark.X) := by
  obtain ⟨b', h1, -, h3, -⟩ := click_move
    ⟨[emptyBoard, [some Mark.X, none, none, none, none, none, none, none, none]], 0⟩
    emptyBoard 4 rfl (by decide) (by decide) (by decide)
  exact ⟨b', h1, h3⟩

/-- C4. For `m` below the length of the history, `jumpTo(m)` gives the state with current
move `m`, a valid index, and the same history, entry for entry; `m` is one of the jump
targets that `moves` offers. -/
theorem jumpTo_spec (g : Game) (m : Nat) (hm : m < g.history.length) :
    (g.jumpTo m).currentMove = m
    ∧ (g.jumpTo m).currentMove < (g.jumpTo m).history.length
    ∧ (g.jumpTo m).history = g.history
    ∧ (∀ k : Nat, (g.jumpTo m).history[k]? = g.history[k]?)
    ∧ m ∈ g.moves := by
  refine ⟨rfl, hm, rfl, fun _ => rfl, ?_⟩
  unfold Game.moves
  rw [List.enum_map_fst]
  exact List.mem_range.mpr hm

/-- Witness of C4: a jump back to the start of a two-entry history. -/
theorem jumpTo_spec_witness :
    (0 : Nat) < (⟨[emptyBoard, [some Mark.X, none, none, none, none, none, none, none, none]],
        1⟩ : Game).history.length
    ∧ ((⟨[emptyBoard, [some Mark.X, none, none, none, none, none, none, none, none]], 1⟩
        : Game).jumpTo 0).currentMove = 0
    ∧ ((⟨[emptyBoard, [some Mark.X, none, none, none, none, none, none, none, none]], 1⟩
        : Game).jumpTo 0).history
      = [emptyBoard, [some Mark.X, none, none, none, none, none, none, none, none]] :=
  ⟨by decide,
    (jumpTo_spec ⟨[emptyBoard, [some Mark.X, none, none, none, none, none, none, none, none]],
      1⟩ 0 (by decide)).1,
    (jumpTo_spec ⟨[emptyBoard, [some Mark.X, none, none, none, none, none, none, none, none]],
      1⟩ 0 (by decide)).2.2.1⟩

theorem click_total {g : Game} (hr : Reachable g) (i : Nat) : ∃ g', g.click i = some g' := by
  have hv := (reachable_inv hr).valid
  have hcur : g.currentSquares = some (g.history.get ⟨g.currentMove, hv⟩) :=
    List.getElem?_eq_getElem hv
  cases h : Board.handleClick g.xIsNext (g.history.get ⟨g.currentMove, hv⟩) i with
  | none => exact ⟨g, by simp only [Game.click, hcur, h]⟩
  | some nextSquares =>
    exact ⟨g.handlePlay nextSquares, by simp only [Game.click, hcur, h]⟩

theorem reachable_clicks {g g' : Game} (hr : Reachable g) (is : List Nat)
    (his : ∀ i ∈ is, i < 9) (hc : g.clicks is = some g') : Reachable g' := by
  induction is generalizing g with
  | nil =>
    simp only [Game.clicks, Option.some.injEq] at hc
    exact hc ▸ hr
  | cons i rest ih =>
    simp only [Game.clicks] at hc
    cases h1 : g.click i with
    | none => rw [h1] at hc; cases hc
    | some g1 =>
      rw [h1] at hc
      exact ih (Reachable.click i hr (his i (List.mem_cons_self _ _)) h1)
        (fun j hj => his j (List.mem_cons_of_mem _ hj)) hc

theorem reachable_sampleGame : Reachable sampleGame :=
  reachable_clicks Reachable.init [0, 4] (by decide) (by decide)

theorem reachable_scenarioGame : Reachable scenarioGame :=
  reachable_clicks Reachable.init [0, 4, 1, 3, 2] (by decide) (by decide)

/-- C5. In every reachable state `history[0]` is the empty board, and each entry
`history[i+1]` differs from `history[i]` in exactly one cell. -/
theorem history_chain (g : Game) (hr : Reachable g) :
    g.history[0]? = some emptyBoard
    ∧ ∀ (i : Nat) (b b' : Squares), g.history[i]? = some b → g.history[i + 1]? = some b' →
      ∃ j, j < 9 ∧ b[j]? ≠ b'[j]? ∧ ∀ k, b[k]? ≠ b'[k]? → k = j := by
  have hg := reachable_inv hr
  refine ⟨hg.start, ?_⟩
  intro i b b' hb hb'
  exact stepOK_diff (hg.nine i b hb) (hg.step i b b' hb hb')

/-- Witness of C5: the state after the clicks 0 and 4. -/
theorem history_chain_witness :
    Reachable sampleGame
    ∧ sampleGame.history[0]? = some emptyBoard
    ∧ ∀ (i : Nat) (b b' : Squares), sampleGame.history[i]? = some b →
      sampleGame.history[i + 1]? = some b' →
      ∃ j, j < 9 ∧ b[j]? ≠ b'[j]? ∧ ∀ k, b[k]? ≠ b'[k]? → k = j :=
  ⟨reachable_sampleGame, history_chain sampleGame reachable_sampleGame⟩

/-- C6. In every reachable state the board `history[k]` has exactly `k` non-empty cells,
and its number of `"X"` is its number of `"O"` or one more. -/
theorem history_counts (g : Game) (hr : Reachable g) (k : Nat) (b : Squares)
    (hb : g.history[k]? = some b) :
    countFilled b = k
    ∧ (countMark Mark.X b = countMark Mark.O b
      ∨ countMark Mark.X b = countMark Mark.O b + 1) := by
  obtain ⟨hX, hO, hF⟩ := inv_counts (reachable_inv hr) k b hb
  refine ⟨hF, ?_⟩
  rw [hX, hO]
  omega

/-- Witness of C6: entry 5 of the history after the clicks 0, 4, 1, 3, 2. -/
theorem history_counts_witness :
    Reachable scenarioGame
    ∧ scenarioGame.history[5]? = some [some Mark.X, some Mark.X, some Mark.X, some Mark.O,
        some Mark.O, none, none, none, none]
    ∧ countFilled [some Mark.X, some Mark.X, some Mark.X, some Mark.O,
        some Mark.O, none, none, none, none] = 5 :=
  ⟨reachable_scenarioGame, rfl,
    (history_counts scenarioGame reachable_scenarioGame 5 _ rfl).1⟩

/-- C7, as the code behaves. From the initial state the clicks 0, 4, 1, 3, 2 give the
current board `["X","X","X","O","O",null,null,null,null]`, whose winner is `"X"`. -/
theorem scenario_board :
    (Game.initial.clicks [0, 4, 1, 3, 2]).bind Game.currentSquares
      = some [some Mark.X, some Mark.X, some Mark.X, some Mark.O, some Mark.O,
          none, none, none, none]
    ∧ ((Game.initial.clicks [0, 4, 1, 3, 2]).bind Game.currentSquares).bind calculateWinner
      = some Mark.X := by
  decide

/-- C7, as stated, fails: after the clicks 0, 4, 1, 3, 2 the current board is not
`["X","O","X","O","X",null,null,null,null]` (and that board has no winner). -/
theorem scenario_board_not_alternating :
    (Game.initial.clicks [0, 4, 1, 3, 2]).bind Game.currentSquares
      ≠ some [some Mark.X, some Mark.O, some Mark.X, some Mark.O, some Mark.X,
          none, none, none, none]
    ∧ calculateWinner [some Mark.X, some Mark.O, some Mark.X, some Mark.O, some Mark.X,
          none, none, none, none] = none := by
  decide

/-- C10. In every reachable state every history entry other than the last has no winner,
no board of the history has both a triple of `"X"` and a triple of `"O"`, all completed
triples of a board of the history carry one mark, and scanning the 8 triples in any order
gives the result of `calculateWinner`. -/
theorem winner_order_independent (g : Game) (hr : Reachable g) :
    (∀ (k : Nat) (b : Squares), g.history[k]? = some b → k + 1 < g.history.length →
      calculateWinner b = none)
    ∧ (∀ b ∈ g.history, ¬ (hasTriple Mark.X b ∧ hasTriple Mark.O b))
    ∧ (∀ b ∈ g.history, ∀ m m' : Mark, hasTriple m b → hasTriple m' b → m = m')
    ∧ (∀ b ∈ g.history, ∀ ls : List (Nat × Nat × Nat), ls.Perm lines →
      scanLines ls b = calculateWinner b) := by
  have hg := reachable_inv hr
  have agree : ∀ b ∈ g.history, ∀ m m' : Mark, hasTriple m b → hasTriple m' b → m = m' := by
    intro b hb m m' hm hm'
    obtain ⟨k, hk⟩ := List.getElem?_of_mem hb
    exact inv_triples_agree hg hk hm hm'
  refine ⟨?_, ?_, agree, ?_⟩
  · intro k b hb hk
    have hnext : g.history[k + 1]? = some (g.history.get ⟨k + 1, hk⟩) :=
      List.getElem?_eq_getElem hk
    exact (hg.step k b _ hb hnext).1
  · rintro b hb ⟨hX, hO⟩
    exact absurd (agree b hb _ _ hX hO) (by decide)
  · intro b hb ls hp
    exact scanLines_perm (agree b hb) hp

/-- Witness of C10: the state after the clicks 0, 4, 1, 3, 2, whose last board has a
winner; the triples scanned in reverse order give the same result. -/
theorem winner_order_independent_witness :
    Reachable scenarioGame
    ∧ ∀ b ∈ scenarioGame.history, scanLines lines.reverse b = calculateWinner b :=
  ⟨reachable_scenarioGame, fun b hb =>
    (winner_order_independent scenarioGame reachable_scenarioGame).2.2.2 b hb lines.reverse
      (List.reverse_perm lines)⟩

end TicTacToe

/-! # Theorems: the lookup widget -/

namespace Lookup

/-! ## `parseInt` on texts without a digit -/

theorem parseInt_eq (inputString : String) :
    parseInt inputString =
      if ((splitRadix (splitSign (inputString.toList.dropWhile isWhiteSpace)).2).2.takeWhile
          (isRadixDigit (splitRadix
            (splitSign (inputString.toList.dropWhile isWhiteSpace)).2).1)).isEmpty
      then none
      else some ((splitSign (inputString.toList.dropWhile isWhiteSpace)).1 *
        (digitsValue (splitRadix (splitSign (inputString.toList.dropWhile isWhiteSpace)).2).1
          ((splitRadix (splitSign (inputString.toList.dropWhile isWhiteSpace)).2).2.takeWhile
            (isRadixDigit (splitRadix
              (splitSign (inputString.toList.dropWhile isWhiteSpace)).2).1)) : Int)) :=
  rfl

theorem isRadixDigit_ten {c : Char} (h : isRadixDigit 10 c = true) :
    isDecimalDigit c = true := by
  unfold isRadixDigit digitValue at h
  by_cases hd : isDecimalDigit c = true
  · exact hd
  · rw [if_neg hd] at h
    split_ifs at h <;> simp at h

theorem mem_splitSign {S : List Char} {c : Char} (h : c ∈ (splitSign S).2) : c ∈ S := by
  unfold splitSign at h
  split at h
  · exact List.mem_cons_of_mem _ h
  · exact List.mem_cons_of_mem _ h
  · exact h

theorem splitRadix_of_no_digit {S : List Char} (h : ∀ c ∈ S, isDecimalDigit c = false) :
    splitRadix S = (10, S) := by
  unfold splitRadix
  split
  · exact absurd (h _ (List.mem_cons_self _ _)) (by decide)
  · exact absurd (h _ (List.mem_cons_self _ _)) (by decide)
  · rfl

theorem takeWhile_of_no_digit {S : List Char} (h : ∀ c ∈ S, isDecimalDigit c = false) :
    S.takeWhile (isRadixDigit 10) = [] := by
  cases S with
  | nil => rfl
  | cons c rest =>
    have hc : isRadixDigit 10 c = false := by
      rw [Bool.eq_false_iff]
      intro hr
      have hd := h c (List.mem_cons_self _ _)
      rw [isRadixDigit_ten hr] at hd
      cases hd
    simp [List.takeWhile, hc]

theorem parseInt_of_no_digit {text : String}
    (h : ∀ c ∈ text.toList, isDecimalDigit c = false) : parseInt text = none := by
  have h1 : ∀ c ∈ (splitSign (text.toList.dropWhile isWhiteSpace)).2,
      isDecimalDigit c = false := fun c hc =>
    h c ((List.dropWhile_sublist _).subset (mem_splitSign hc))
  rw [parseInt_eq, splitRadix_of_no_digit h1, takeWhile_of_no_digit h1]
  rfl

theorem idInRange_iff {r : Option Int} :
    idInRange r = true ↔ ∃ id, r = some id ∧ 1 ≤ id ∧ id ≤ 10 := by
  cases r with
  | none => simp [idInRange]
  | some id => simp [idInRange]

theorem handleSearch_in_range {w : Widget} {id : Int} (hp : parseInt w.userId = some id)
    (hr : 1 ≤ id ∧ id ≤ 10) :
    handleSearch w = (⟨w.userId, none, true, none, false⟩, [id]) := by
  have : idInRange (some id) = true := idInRange_iff.mpr ⟨id, rfl, hr⟩
  simp only [handleSearch, hp, this, if_true, fetchUserData]

theorem handleSearch_out_of_range {w : Widget}
    (h : ¬ ∃ id, parseInt w.userId = some id ∧ 1 ≤ id ∧ id ≤ 10) :
    handleSearch w = (⟨w.userId, none, false, none, true⟩, []) := by
  unfold handleSearch
  cases hp : parseInt w.userId with
  | none => rfl
  | some id =>
    have : idInRange (some id) = false := by
      rw [Bool.eq_false_iff]
      intro ht
      obtain ⟨id', hid, hr⟩ := idInRange_iff.mp ht
      cases hid
      exact h ⟨id, hp, hr⟩
    simp only [this, Bool.false_eq_true, if_false]

/-! ## The claims about the lookup widget -/

/-- C8. For every text in the input of the lookup widget, `handleSearch` issues a request
only when the integer that `parseInt` reads from the text lies in `[1,10]`, and then
exactly one, for that integer; for every other text it issues no request and leaves the
not-found state (`notFound` set, `user` and `error` cleared, `loading` false), whatever
the state before. Among the other texts are `"0"`, `"11"` and every non-numeric text, for
which the input element holds the empty string, and every text without a decimal digit. -/
theorem handleSearch_spec (w : Widget) (typed : String) :
    (∀ id ∈ (handleSearch w).2, parseInt w.userId = some id ∧ 1 ≤ id ∧ id ≤ 10)
    ∧ (∀ id, parseInt w.userId = some id → 1 ≤ id ∧ id ≤ 10 → (handleSearch w).2 = [id])
    ∧ ((¬ ∃ id, parseInt w.userId = some id ∧ 1 ≤ id ∧ id ≤ 10) →
        (handleSearch w).2 = []
        ∧ (handleSearch w).1 = ⟨w.userId, none, false, none, true⟩)
    ∧ ((typed = "0" ∨ typed = "11" ∨ isValidNumber typed = false) →
        (handleSearch (onChange w typed)).2 = []
        ∧ (handleSearch (onChange w typed)).1
          = ⟨numberInputValue typed, none, false, none, true⟩)
    ∧ ((w.userId = "0" ∨ w.userId = "11"
          ∨ ∀ c ∈ w.userId.toList, isDecimalDigit c = false) →
        (handleSearch w).2 = []
        ∧ (handleSearch w).1 = ⟨w.userId, none, false, none, true⟩) := by
  have out : ∀ v : Widget, (¬ ∃ id, parseInt v.userId = some id ∧ 1 ≤ id ∧ id ≤ 10) →
      (handleSearch v).2 = [] ∧ (handleSearch v).1 = ⟨v.userId, none, false, none, true⟩ := by
    intro v h
    rw [handleSearch_out_of_range h]
    exact ⟨rfl, rfl⟩
  have h0 : parseInt "0" = some 0 := by decide
  have h11 : parseInt "11" = some 11 := by decide
  have hempty : parseInt "" = none := by decide
  refine ⟨?_, ?_, out w, ?_, ?_⟩
  · intro id hid
    by_cases h : ∃ id, parseInt w.userId = some id ∧ 1 ≤ id ∧ id ≤ 10
    · obtain ⟨id', hp, hr⟩ := h
      rw [handleSearch_in_range hp hr] at hid
      simp only [List.mem_singleton] at hid
      subst hid
      exact ⟨hp, hr⟩
    · rw [(out w h).1] at hid
      cases hid
  · intro id hp hr
    rw [handleSearch_in_range hp hr]
  · intro h
    have hv : (onChange w typed).userId = numberInputValue typed := rfl
    have := out (onChange w typed)
    rw [hv] at this
    apply this
    rintro ⟨id, hp, hr⟩
    rcases h with h | h | h
    · subst h
      have hval : numberInputValue "0" = "0" := by decide
      rw [hval, h0] at hp
      cases hp
      omega
    · subst h
      have hval : numberInputValue "11" = "11" := by decide
      rw [hval, h11] at hp
      cases hp
      omega
    · have hval : numberInputValue typed = "" := by
        unfold numberInputValue
        rw [h]
        rfl
      rw [hval, hempty] at hp
      cases hp
  · intro h
    apply out w
    rintro ⟨id, hp, hr⟩
    rcases h with h | h | h
    · rw [h, h0] at hp
      cases hp
      omega
    · rw [h, h11] at hp
      cases hp
      omega
    · rw [parseInt_of_no_digit h] at hp
      cases hp

/-- C9, the failing run. The search for `"5"`, then the search for `"0"` while the request
is outstanding, then the arrival of the record of user 5: the render conditions show the
not-found message and the user card together. -/
theorem lookup_two_displays :
    (Sys.initial.run [Ev.type "5", Ev.search, Ev.type "0", Ev.search,
        Ev.arrive 0 (Response.http true
          ⟨some 5, "Chelsey Dietrich", "Lucio_Hettinger@annie.ca", "(254)954-1289",
            "demarco.info"⟩)]).map (fun s => shown s.widget)
      = some [Display.notFound, Display.userCard] := by
  decide

end Lookup
